import Mathlib

/-!
# Verification of the Path-Finding-Visualizer pathfinding / maze-generation core

Shallow embedding of the repository's algorithm suite:
* the six search algorithms (`dijkstra`, `astar`, `bfs`, `dfs`, `greedy`,
  `bidirectional`) from `src/unnamed/part_002` (the module exported as the
  `algorithms` record), together with the helpers `getNeighbors`,
  `heuristic`, `reconstructPath`, `reconstructBidirectionalPath`,
  `dfsRecursive`;
* the six maze generators from `src/lib/maze-generators.ts`.

Modelling conventions:
* A grid is a `List (List Cell)` mirroring `GridNode[][]`.  JavaScript node
  objects are mutable references; two distinct cells of a well-formed grid
  are distinguished by their `(row, col)` coordinates, so object identity
  (`===`) is modelled by coordinate equality and the worklists
  (`unvisitedNodes`, `openSet`, queues) store coordinates that are looked up
  in the current grid state, exactly as the mutable references observe the
  current field values.
* `Number.POSITIVE_INFINITY` distances are modelled by `Option Nat` with
  `none` as the infinity sentinel; weights and heuristics are `Nat`
  (the data model uses weights 1 and 5).
* `Array.prototype.sort` with the numeric comparators used by the code is a
  stable ascending sort (ES2019 requires stability; the comparator value
  `NaN`, arising from `inf - inf`, is treated as `+0`, i.e. a tie).  It is
  embedded as the structurally recursive stable insertion sort `stableSort`,
  which agrees with every stable sort.
* The `async`/`await` suspensions do not affect the returned data; the
  per-visit suspension points are recorded in an explicit event trace, one
  event per processed node, carrying `some delayAmount` when the code
  awaits a timeout there and `none` when it does not.  Delay amounts are
  rationals (`(101 - speed) / 2` is not an integer).  The `onUpdate`
  callback and the wall-clock `executionTime` statistic are not modelled
  (the callback only repaints, and short-circuit evaluation means the
  callback-guarded code runs no other effect when the callback is absent);
  the `executionTime` field is omitted from the embedded stats record.
* Loops whose termination depends on state invariants are driven by an
  explicit fuel parameter; the search algorithms return `Option`, with
  `none` only on fuel exhaustion, and fuel sufficiency is proved where a
  claim needs totality.
* `Math.random()` draws are modelled by a stream (`List Nat`) of draws,
  consumed one per call: `Math.random() < p` (thresholds 0.35, 0.5 in the
  generators) becomes `draw % 100 < 100·p`, and
  `Math.floor(Math.random() * n)` becomes `draw % n`.  Both translations
  realise exactly the outcome sets of the original calls.  Draws guarded by
  `onUpdate && …` are not consumed (short-circuit with the absent callback).
-/

namespace PFV

/-- A grid coordinate `(row, col)`. -/
abbrev Pos := Nat × Nat

/-- One grid cell, mirroring the `GridNode` interface of
`src/types/pathfinding.ts`.  `distance = none` models
`Number.POSITIVE_INFINITY`; `previousNode` stores the predecessor's
coordinates. -/
structure Cell where
  row : Nat
  col : Nat
  isStart : Bool
  isEnd : Bool
  isWall : Bool
  isVisited : Bool
  isPath : Bool
  distance : Option Nat
  heuristic : Nat
  weight : Nat
  previousNode : Option Pos
deriving Repr, DecidableEq

/-- The default cell used for (never exercised) out-of-bounds grid reads. -/
def defaultCell : Cell :=
  { row := 0, col := 0, isStart := false, isEnd := false, isWall := false,
    isVisited := false, isPath := false, distance := none, heuristic := 0,
    weight := 1, previousNode := none }

instance : Inhabited Cell := ⟨defaultCell⟩

/-- `GridNode[][]`. -/
abbrev Grid := List (List Cell)

/-- Row count (`grid.length`). -/
def gRows (g : Grid) : Nat := g.length

/-- Column count (`grid[0].length`). -/
def gCols (g : Grid) : Nat := (g.headD []).length

/-- In-bounds read `grid[r][c]`. -/
def cellAt? (g : Grid) (p : Pos) : Option Cell :=
  (g.get? p.1).bind (fun row => row.get? p.2)

/-- Total read of `grid[r][c]` (callers only use in-bounds coordinates). -/
def cell (g : Grid) (p : Pos) : Cell := (cellAt? g p).getD defaultCell

/-- Replace the element at an index of a list (identity when out of bounds). -/
def setIdx (f : α → α) : Nat → List α → List α
  | _, [] => []
  | 0, a :: as => f a :: as
  | n + 1, a :: as => a :: setIdx f n as

/-- In-place field update of the cell at `p`: `grid[r][c].field = v`. -/
def updCell (g : Grid) (p : Pos) (f : Cell → Cell) : Grid :=
  setIdx (fun row => setIdx f p.2 row) p.1 g

/-- The grid is a rectangle of the given dimensions. -/
def RectGrid (g : Grid) (rows cols : Nat) : Prop :=
  g.length = rows ∧ ∀ row ∈ g, row.length = cols

instance (g : Grid) (rows cols : Nat) : Decidable (RectGrid g rows cols) := by
  unfold RectGrid; infer_instance

/-- Every cell's `row`/`col` fields agree with its position in the grid
(the data-model invariant: indices are fixed for a node's lifetime). -/
def CoherentGrid (g : Grid) : Prop :=
  ∀ r, r < g.length → ∀ c, c < (g.getD r []).length →
    (cell g (r, c)).row = r ∧ (cell g (r, c)).col = c

instance (g : Grid) : Decidable (CoherentGrid g) := by
  unfold CoherentGrid; infer_instance

/-! ## The stable sort

`Array.prototype.sort` with comparator `(a, b) => key a - key b` sorts
ascending by `key` and is stable.  `stableSort le` below is the insertion
sort that inserts each successive element after all already-placed elements
`y` with `le y x`, hence is stable, sorted, and a permutation — which
pins it to the JavaScript result exactly. -/

/-- Insert `x` after every leading element `y` with `le y x`. -/
def insertLe (le : α → α → Bool) (x : α) : List α → List α
  | [] => [x]
  | y :: ys => if le y x then y :: insertLe le x ys else x :: y :: ys

/-- Stable insertion sort: fold the input left-to-right into a sorted
accumulator. -/
def stableSort (le : α → α → Bool) (l : List α) : List α :=
  l.foldl (fun acc x => insertLe le x acc) []

theorem insertLe_perm (le : α → α → Bool) (x : α) (l : List α) :
    List.Perm (insertLe le x l) (x :: l) := by
  induction l with
  | nil => simp [insertLe]
  | cons y ys ih =>
    simp only [insertLe]
    split
    · exact ((ih.cons y).trans (List.Perm.swap x y ys))
    · exact List.Perm.refl _

theorem insertLe_sorted (le : α → α → Bool)
    (total : ∀ a b, le a b = true ∨ le b a = true)
    (trans : ∀ a b c, le a b = true → le b c = true → le a c = true)
    (x : α) (l : List α)
    (h : l.Pairwise (fun a b => le a b = true)) :
    (insertLe le x l).Pairwise (fun a b => le a b = true) := by
  induction l with
  | nil => simp [insertLe]
  | cons y ys ih =>
    rcases List.pairwise_cons.mp h with ⟨hy, hys⟩
    simp only [insertLe]
    split
    · rename_i hle
      refine List.pairwise_cons.mpr ⟨?_, ih hys⟩
      intro b hb
      rcases List.mem_cons.mp ((List.Perm.mem_iff (insertLe_perm le x ys)).mp hb) with hb | hb
      · subst hb; exact hle
      · exact hy b hb
    · rename_i hnle
      have hxy : le x y = true := by
        rcases total x y with h' | h'
        · exact h'
        · exact absurd h' hnle
      refine List.pairwise_cons.mpr ⟨?_, h⟩
      intro b hb
      rcases List.mem_cons.mp hb with hb | hb
      · subst hb; exact hxy
      · exact trans x y b hxy (hy b hb)

theorem stableSort_perm (le : α → α → Bool) (l : List α) :
    List.Perm (stableSort le l) l := by
  suffices h : ∀ acc : List α,
      List.Perm (l.foldl (fun acc x => insertLe le x acc) acc) (acc ++ l) by
    simpa using h []
  induction l with
  | nil => intro acc; simp
  | cons x xs ih =>
    intro acc
    simp only [List.foldl_cons]
    refine (ih (insertLe le x acc)).trans ?_
    refine ((insertLe_perm le x acc).append_right xs).trans ?_
    exact (@List.perm_middle _ x acc xs).symm

theorem stableSort_sorted (le : α → α → Bool)
    (total : ∀ a b, le a b = true ∨ le b a = true)
    (trans : ∀ a b c, le a b = true → le b c = true → le a c = true)
    (l : List α) :
    (stableSort le l).Pairwise (fun a b => le a b = true) := by
  suffices h : ∀ acc : List α, acc.Pairwise (fun a b => le a b = true) →
      (l.foldl (fun acc x => insertLe le x acc) acc).Pairwise
        (fun a b => le a b = true) by
    exact h [] (by simp)
  induction l with
  | nil => intro acc hacc; simpa using hacc
  | cons x xs ih =>
    intro acc hacc
    exact ih (insertLe le x acc) (insertLe_sorted le total trans x acc hacc)

theorem stableSort_length (le : α → α → Bool) (l : List α) :
    (stableSort le l).length = l.length :=
  (stableSort_perm le l).length_eq

theorem mem_stableSort (le : α → α → Bool) {a : α} {l : List α} :
    a ∈ stableSort le l ↔ a ∈ l :=
  (stableSort_perm le l).mem_iff

/-! ## Extended distances

`Option Nat` with `none` as `Number.POSITIVE_INFINITY`. -/

/-- `d + w` on extended distances (`inf + w = inf`). -/
def dAdd : Option Nat → Nat → Option Nat
  | none, _ => none
  | some d, w => some (d + w)

/-- Strict `<` on extended distances. -/
def dltB : Option Nat → Option Nat → Bool
  | none, _ => false
  | some _, none => true
  | some a, some b => a < b

/-- Non-strict `≤` on extended distances; `inf ≤ inf` holds, matching the
JavaScript comparator where `inf - inf = NaN` is treated as a tie. -/
def dleB : Option Nat → Option Nat → Bool
  | none, none => true
  | none, some _ => false
  | some _, none => true
  | some a, some b => a ≤ b

theorem dleB_total (a b : Option Nat) : dleB a b = true ∨ dleB b a = true := by
  cases a <;> cases b <;> simp [dleB] <;> omega

theorem dleB_trans (a b c : Option Nat) :
    dleB a b = true → dleB b c = true → dleB a c = true := by
  cases a <;> cases b <;> cases c <;> simp [dleB] <;> omega

/-! ## Shared search-engine helpers (`src/unnamed/part_002`, lines 593–630) -/

/-- `getNeighbors(grid, node)`: the in-bounds orthogonal neighbours in the
fixed order up, down, left, right. -/
def getNeighbors (rows cols : Nat) (p : Pos) : List Pos :=
  (if 1 ≤ p.1 then [(p.1 - 1, p.2)] else []) ++
  (if p.1 + 1 < rows then [(p.1 + 1, p.2)] else []) ++
  (if 1 ≤ p.2 then [(p.1, p.2 - 1)] else []) ++
  (if p.2 + 1 < cols then [(p.1, p.2 + 1)] else [])

/-- `heuristic(nodeA, nodeB)`: Manhattan distance. -/
def heuristic (a b : Pos) : Nat := Nat.dist a.1 b.1 + Nat.dist a.2 b.2

/-- `reconstructPath(endNode)`: walk `previousNode` links, prepending.  The
fuel bounds the walk; `none` models the (never reached) case of a cyclic
predecessor chain, on which the JavaScript loop would not terminate. -/
def reconstructPath (g : Grid) : Nat → Option Pos → List Pos → Option (List Pos)
  | _, none, acc => some acc
  | 0, some _, _ => none
  | fuel + 1, some p, acc => reconstructPath g fuel (cell g p).previousNode (p :: acc)

/-- Search-run statistics (`VisualizationStats` minus the wall-clock
`executionTime`, which is not modelled). -/
structure Stats where
  pathFound : Bool
  pathLength : Nat
  nodesVisited : Nat
  nodesInPath : Nat
deriving Repr, DecidableEq

/-- `AlgorithmResult`: the returned path and visited trace (as coordinate
lists) plus statistics. -/
structure AlgorithmResult where
  path : List Pos
  visitedNodes : List Pos
  stats : Stats
deriving Repr, DecidableEq

/-- A per-visit suspension event: the processed node, paired with
`some amount` when the code awaits a `setTimeout(amount)` there and `none`
when the visit incurs no delay. -/
abbrev Ev := Pos × Option ℚ

/-- Everything observable about one search run: the result record, the final
grid state, and the per-visit suspension trace. -/
structure RunOut where
  result : AlgorithmResult
  grid : Grid
  events : List Ev
deriving Repr, DecidableEq

/-- The path-reveal loop shared by the success branches: mark each
non-start/non-end path node `isPath`. -/
def revealPath (g : Grid) (path : List Pos) (sp ep : Pos) : Grid :=
  path.foldl
    (fun g p => if p ≠ sp ∧ p ≠ ep then updCell g p (fun c => { c with isPath := true }) else g)
    g

/-- The success `return` shared by the algorithms: reveal the path and
assemble the result record. -/
def successOut (g : Grid) (trace : List Pos) (events : List Ev)
    (path : List Pos) (sp ep : Pos) : RunOut :=
  { result :=
      { path := path, visitedNodes := trace,
        stats :=
          { pathFound := true, pathLength := path.length,
            nodesVisited := trace.length, nodesInPath := path.length } },
    grid := revealPath g path sp ep, events := events }

/-- The failure `return` shared by the algorithms. -/
def failureOut (g : Grid) (trace : List Pos) (events : List Ev) : RunOut :=
  { result :=
      { path := [], visitedNodes := trace,
        stats :=
          { pathFound := false, pathLength := 0,
            nodesVisited := trace.length, nodesInPath := 0 } },
    grid := g, events := events }

/-- Row-major list of all grid positions, the order in which
`for (const row of grid) for (const node of row)` enumerates the cells of a
rectangular grid. -/
def allPositions (rows cols : Nat) : List Pos :=
  (List.range rows).flatMap (fun r => (List.range cols).map (fun c => (r, c)))

/-- Apply a per-cell reset to every cell. -/
def resetGrid (f : Cell → Cell) (g : Grid) : Grid := g.map (List.map f)

/-! ## `dijkstra` (`src/unnamed/part_002`, lines 3–98) -/

/-- The per-iteration reset of `dijkstra` (and `bfs`). -/
def resetCellDijkstra (c : Cell) : Cell :=
  { c with distance := none, previousNode := none, isVisited := false, isPath := false }

/-- One pass of `dijkstra`'s neighbour relaxation. -/
def dijkstraRelax (rows cols : Nat) (cur : Pos) (g : Grid) : Grid :=
  (getNeighbors rows cols cur).foldl
    (fun g n =>
      let nc := cell g n
      if !nc.isVisited && !nc.isWall then
        let tentative := dAdd (cell g cur).distance nc.weight
        if dltB tentative nc.distance then
          updCell g n (fun c => { c with distance := tentative, previousNode := some cur })
        else g
      else g)
    g

/-- The `while (unvisitedNodes.length > 0)` loop of `dijkstra`. -/
def dijkstraLoop (rows cols : Nat) (sp ep : Pos) (speed : ℚ) :
    Nat → Grid → List Pos → List Pos → List Ev → Option RunOut
  | 0, _, _, _, _ => none
  | _ + 1, g, [], trace, events => some (failureOut g trace events)
  | fuel + 1, g, unvisited@(_ :: _), trace, events =>
    match stableSort (fun a b => dleB (cell g a).distance (cell g b).distance) unvisited with
    | [] => none
    | cur :: rest =>
      if (cell g cur).isWall || (cell g cur).distance = none then
        some (failureOut g trace events)
      else
        let g := updCell g cur (fun c => { c with isVisited := true })
        let trace := trace ++ [cur]
        let events := events ++
          [(cur, if cur ≠ sp ∧ cur ≠ ep then some (101 - speed) else none)]
        if cur = ep then
          match reconstructPath g (rows * cols + 1) (some ep) [] with
          | none => none
          | some path => some (successOut g trace events path sp ep)
        else
          dijkstraLoop rows cols sp ep speed fuel
            (dijkstraRelax rows cols cur g) rest trace events

/-- `dijkstra(grid, start, end, animationSpeed)`. -/
def dijkstra (g0 : Grid) (start finish : Pos) (speed : ℚ) : Option RunOut :=
  let rows := gRows g0
  let cols := gCols g0
  let g := updCell (resetGrid resetCellDijkstra g0) start
    (fun c => { c with distance := some 0 })
  dijkstraLoop rows cols start finish speed (rows * cols + 1) g
    (allPositions rows cols) [] []

/-! ## `astar` (`src/unnamed/part_002`, lines 100–203) -/

/-- The per-iteration reset of `astar`. -/
def resetCellAstar (c : Cell) : Cell :=
  { c with distance := none, heuristic := 0, previousNode := none,
           isVisited := false, isPath := false }

/-- `distance + heuristic`, the A* priority. -/
def fVal (c : Cell) : Option Nat :=
  match c.distance with
  | none => none
  | some d => some (d + c.heuristic)

/-- `astar`'s neighbour loop: relax each neighbour and push newly
discovered ones onto the open set (which the membership test consults as it
evolves). -/
def astarRelax (rows cols : Nat) (ep cur : Pos) (g : Grid) (openSet : List Pos) :
    Grid × List Pos :=
  (getNeighbors rows cols cur).foldl
    (fun (acc : Grid × List Pos) n =>
      let (g, openSet) := acc
      let nc := cell g n
      if nc.isVisited || nc.isWall then (g, openSet)
      else
        let tentative := dAdd (cell g cur).distance nc.weight
        let isInOpenSet := n ∈ openSet
        if ¬isInOpenSet ∨ dltB tentative nc.distance = true then
          (updCell g n (fun c =>
             { c with distance := tentative, heuristic := heuristic n ep,
                      previousNode := some cur }),
           if ¬isInOpenSet then openSet ++ [n] else openSet)
        else (g, openSet))
    (g, openSet)

/-- The `while (openSet.length > 0)` loop of `astar`. -/
def astarLoop (rows cols : Nat) (sp ep : Pos) (speed : ℚ) :
    Nat → Grid → List Pos → List Pos → List Ev → Option RunOut
  | 0, _, _, _, _ => none
  | _ + 1, g, [], trace, events => some (failureOut g trace events)
  | fuel + 1, g, openSet@(_ :: _), trace, events =>
    match stableSort (fun a b => dleB (fVal (cell g a)) (fVal (cell g b))) openSet with
    | [] => none
    | cur :: rest =>
      if (cell g cur).isWall then astarLoop rows cols sp ep speed fuel g rest trace events
      else
        let g := updCell g cur (fun c => { c with isVisited := true })
        let trace := trace ++ [cur]
        let events := events ++
          [(cur, if cur ≠ sp ∧ cur ≠ ep then some (101 - speed) else none)]
        if cur = ep then
          match reconstructPath g (rows * cols + 1) (some ep) [] with
          | none => none
          | some path => some (successOut g trace events path sp ep)
        else
          let (g', open') := astarRelax rows cols ep cur g rest
          astarLoop rows cols sp ep speed fuel g' open' trace events

/-- `astar(grid, start, end, animationSpeed)`. -/
def astar (g0 : Grid) (start finish : Pos) (speed : ℚ) : Option RunOut :=
  let rows := gRows g0
  let cols := gCols g0
  let g := updCell (resetGrid resetCellAstar g0) start
    (fun c => { c with distance := some 0, heuristic := heuristic start finish })
  astarLoop rows cols start finish speed (2 * (rows * cols) + 2) g [start] [] []

/-! ## `bfs` (`src/unnamed/part_002`, lines 205–295) -/

/-- `bfs`'s neighbour loop: mark, set distance and parent, enqueue, and
append to the visited trace at discovery time. -/
def bfsExpand (rows cols : Nat) (cur : Pos) (g : Grid) (queue trace : List Pos) :
    Grid × List Pos × List Pos :=
  (getNeighbors rows cols cur).foldl
    (fun (acc : Grid × List Pos × List Pos) n =>
      let (g, queue, trace) := acc
      let nc := cell g n
      if !nc.isVisited && !nc.isWall then
        (updCell g n (fun c =>
           { c with isVisited := true, distance := dAdd (cell g cur).distance 1,
                    previousNode := some cur }),
         queue ++ [n], trace ++ [n])
      else acc)
    (g, queue, trace)

/-- The `while (queue.length > 0)` loop of `bfs`. -/
def bfsLoop (rows cols : Nat) (sp ep : Pos) (speed : ℚ) :
    Nat → Grid → List Pos → List Pos → List Ev → Option RunOut
  | 0, _, _, _, _ => none
  | _ + 1, g, [], trace, events => some (failureOut g trace events)
  | fuel + 1, g, cur :: rest, trace, events =>
    let events := events ++
      [(cur, if cur ≠ sp ∧ cur ≠ ep then some (101 - speed) else none)]
    if cur = ep then
      match reconstructPath g (rows * cols + 1) (some ep) [] with
      | none => none
      | some path => some (successOut g trace events path sp ep)
    else
      match bfsExpand rows cols cur g rest trace with
      | (g', queue', trace') => bfsLoop rows cols sp ep speed fuel g' queue' trace' events

/-- `bfs(grid, start, end, animationSpeed)`. -/
def bfs (g0 : Grid) (start finish : Pos) (speed : ℚ) : Option RunOut :=
  let rows := gRows g0
  let cols := gCols g0
  let g := updCell (resetGrid resetCellDijkstra g0) start
    (fun c => { c with distance := some 0, isVisited := true })
  bfsLoop rows cols start finish speed (rows * cols + 1) g [start] [start] []

/-! ## `dfs` (`src/unnamed/part_002`, lines 297–358 and 632–670) -/

/-- The per-iteration reset of `dfs` (and `bidirectional`): visitation and
path state only. -/
def resetCellDfs (c : Cell) : Cell :=
  { c with isVisited := false, isPath := false, previousNode := none }

/-- The `for (const neighbor of neighbors)` loop of `dfsRecursive`: set the
parent, recurse, and stop at the first success.  `rec` is the recursive
call at the smaller depth budget. -/
def dfsNeighbors
    (rec : Grid → List Pos → List Ev → Pos → Option (Bool × Grid × List Pos × List Ev))
    (cur : Pos) :
    Grid → List Pos → List Ev → List Pos → Option (Bool × Grid × List Pos × List Ev)
  | g, trace, events, [] => some (false, g, trace, events)
  | g, trace, events, n :: ns =>
    let nc := cell g n
    if !nc.isVisited && !nc.isWall then
      match rec (updCell g n (fun c => { c with previousNode := some cur })) trace events n with
      | none => none
      | some (true, g', t', e') => some (true, g', t', e')
      | some (false, g', t', e') => dfsNeighbors rec cur g' t' e' ns
    else dfsNeighbors rec cur g trace events ns

/-- `dfsRecursive(grid, currentNode, endNode, visitedNodes, animationSpeed)`.
Note the delay guard only exempts the end node (`currentNode !== endNode`);
the start node is *not* exempted, unlike every other algorithm. -/
def dfsRecursive (rows cols : Nat) (ep : Pos) (speed : ℚ) :
    Nat → Grid → List Pos → List Ev → Pos → Option (Bool × Grid × List Pos × List Ev)
  | 0, _, _, _, _ => none
  | fuel + 1, g, trace, events, cur =>
    let c := cell g cur
    if c.isWall || c.isVisited then some (false, g, trace, events)
    else
      let g := updCell g cur (fun c => { c with isVisited := true })
      let trace := trace ++ [cur]
      let events := events ++ [(cur, if cur ≠ ep then some (101 - speed) else none)]
      if cur = ep then some (true, g, trace, events)
      else
        dfsNeighbors (dfsRecursive rows cols ep speed fuel) cur g trace events
          (getNeighbors rows cols cur)

/-- `dfs(grid, start, end, animationSpeed)`. -/
def dfs (g0 : Grid) (start finish : Pos) (speed : ℚ) : Option RunOut :=
  let rows := gRows g0
  let cols := gCols g0
  let g := resetGrid resetCellDfs g0
  match dfsRecursive rows cols finish speed (rows * cols + 2) g [] [] start with
  | none => none
  | some (found, g', trace, events) =>
    if found then
      match reconstructPath g' (rows * cols + 1) (some finish) [] with
      | none => none
      | some path => some (successOut g' trace events path start finish)
    else some (failureOut g' trace events)

/-! ## `greedy` (`src/unnamed/part_002`, lines 360–452) -/

/-- The per-iteration reset of `greedy`. -/
def resetCellGreedy (c : Cell) : Cell :=
  { c with heuristic := 0, previousNode := none, isVisited := false, isPath := false }

/-- `greedy`'s neighbour loop: discovered nodes get their heuristic and
parent set once and are pushed; membership consults the evolving open set. -/
def greedyExpand (rows cols : Nat) (ep cur : Pos) (g : Grid) (openSet : List Pos) :
    Grid × List Pos :=
  (getNeighbors rows cols cur).foldl
    (fun (acc : Grid × List Pos) n =>
      let (g, openSet) := acc
      let nc := cell g n
      if !nc.isVisited && !nc.isWall && !(openSet.contains n) then
        (updCell g n (fun c =>
           { c with heuristic := heuristic n ep, previousNode := some cur }),
         openSet ++ [n])
      else (g, openSet))
    (g, openSet)

/-- The `while (openSet.length > 0)` loop of `greedy`. -/
def greedyLoop (rows cols : Nat) (sp ep : Pos) (speed : ℚ) :
    Nat → Grid → List Pos → List Pos → List Ev → Option RunOut
  | 0, _, _, _, _ => none
  | _ + 1, g, [], trace, events => some (failureOut g trace events)
  | fuel + 1, g, openSet@(_ :: _), trace, events =>
    match stableSort (fun a b =>
        decide ((cell g a).heuristic ≤ (cell g b).heuristic)) openSet with
    | [] => none
    | cur :: rest =>
      if (cell g cur).isWall || (cell g cur).isVisited then
        greedyLoop rows cols sp ep speed fuel g rest trace events
      else
        let g := updCell g cur (fun c => { c with isVisited := true })
        let trace := trace ++ [cur]
        let events := events ++
          [(cur, if cur ≠ sp ∧ cur ≠ ep then some (101 - speed) else none)]
        if cur = ep then
          match reconstructPath g (rows * cols + 1) (some ep) [] with
          | none => none
          | some path => some (successOut g trace events path sp ep)
        else
          let (g', open') := greedyExpand rows cols ep cur g rest
          greedyLoop rows cols sp ep speed fuel g' open' trace events

/-- `greedy(grid, start, end, animationSpeed)`. -/
def greedy (g0 : Grid) (start finish : Pos) (speed : ℚ) : Option RunOut :=
  let rows := gRows g0
  let cols := gCols g0
  let g := updCell (resetGrid resetCellGreedy g0) start
    (fun c => { c with heuristic := heuristic start finish })
  greedyLoop rows cols start finish speed (2 * (rows * cols) + 2) g [start] [] []

/-! ## `bidirectional` (`src/unnamed/part_002`, lines 454–591 and 672–700) -/

/-- `Map.get` on the `"row-col"`-keyed parent maps (each key is set at most
once, so an association list is an exact model). -/
def lookupParent (ps : List (Pos × Pos)) (p : Pos) : Option Pos :=
  (ps.find? (fun q => decide (q.1 = p))).map (fun q => q.2)

/-- The first `while (current)` loop of `reconstructBidirectionalPath`:
walk the start-side parents from the meeting point, prepending. -/
def chainToStart (ps : List (Pos × Pos)) : Nat → Pos → List Pos → Option (List Pos)
  | 0, _, _ => none
  | fuel + 1, p, acc =>
    match lookupParent ps p with
    | none => some (p :: acc)
    | some q => chainToStart ps fuel q (p :: acc)

/-- The second `while (current)` loop: walk the end-side parents from the
meeting point's end-side parent, appending. -/
def chainToEnd (ps : List (Pos × Pos)) : Nat → Option Pos → List Pos → Option (List Pos)
  | _, none, acc => some acc
  | 0, some _, _ => none
  | fuel + 1, some p, acc => chainToEnd ps fuel (lookupParent ps p) (acc ++ [p])

/-- `reconstructBidirectionalPath(startNode, endNode, meetingPoint,
startParents, endParents)` (the node arguments are unused by the source). -/
def reconstructBidirectionalPath (fuel : Nat) (startParents endParents : List (Pos × Pos))
    (meetingPoint : Pos) : Option (List Pos) :=
  match chainToStart startParents fuel meetingPoint [] with
  | none => none
  | some startPath =>
    match chainToEnd endParents fuel (lookupParent endParents meetingPoint) [] with
    | none => none
    | some endPath => some (startPath ++ endPath)

/-- The mutable state of one `bidirectional` run. -/
structure BdState where
  g : Grid
  startQueue : List Pos
  endQueue : List Pos
  startVisited : List Pos
  endVisited : List Pos
  startParents : List (Pos × Pos)
  endParents : List (Pos × Pos)
  trace : List Pos
  events : List Ev
deriving Repr

/-- One side's frontier expansion: discover non-wall neighbours not yet in
this side's visited set, recording parent and enqueueing. -/
def bdExpand (rows cols : Nat) (cur : Pos) (g : Grid)
    (visitedSet : List Pos) (parents : List (Pos × Pos)) (queue : List Pos) :
    List Pos × List (Pos × Pos) × List Pos :=
  (getNeighbors rows cols cur).foldl
    (fun (acc : List Pos × List (Pos × Pos) × List Pos) n =>
      let (vs, ps, q) := acc
      if ¬(cell g n).isWall = true ∧ n ∉ vs then (n :: vs, (n, cur) :: ps, q ++ [n])
      else acc)
    (visitedSet, parents, queue)

/-- The `while (startQueue.length > 0 || endQueue.length > 0)` loop of
`bidirectional`: one start-side step then one end-side step per iteration,
with the meeting test against the other side's discovered set performed on
dequeue (before expansion). -/
def bdLoop (rows cols : Nat) (sp ep : Pos) (speed : ℚ) :
    Nat → BdState → Option RunOut
  | 0, _ => none
  | fuel + 1, st =>
    if st.startQueue.isEmpty ∧ st.endQueue.isEmpty then
      some (failureOut st.g st.trace st.events)
    else
      let step1 : BdState ⊕ (Grid × List Pos × List Ev × Pos) :=
        match st.startQueue with
        | [] => Sum.inl st
        | cur :: rest =>
          let g := updCell st.g cur (fun c => { c with isVisited := true })
          let trace := st.trace ++ [cur]
          let events := st.events ++
            [(cur, if cur ≠ sp ∧ cur ≠ ep then some ((101 - speed) / 2) else none)]
          if cur ∈ st.endVisited then Sum.inr (g, trace, events, cur)
          else
            let (sv, spar, sq) :=
              bdExpand rows cols cur g st.startVisited st.startParents rest
            Sum.inl { st with g := g, startQueue := sq, startVisited := sv,
                              startParents := spar, trace := trace, events := events }
      match step1 with
      | Sum.inr (g, trace, events, meet) =>
        (match reconstructBidirectionalPath (rows * cols + 1)
            st.startParents st.endParents meet with
         | none => none
         | some path => some (successOut g trace events path sp ep))
      | Sum.inl st1 =>
        let step2 : BdState ⊕ (Grid × List Pos × List Ev × Pos) :=
          match st1.endQueue with
          | [] => Sum.inl st1
          | cur :: rest =>
            let g := updCell st1.g cur (fun c => { c with isVisited := true })
            let trace := if cur ∈ st1.trace then st1.trace else st1.trace ++ [cur]
            let events := st1.events ++
              [(cur, if cur ≠ sp ∧ cur ≠ ep then some ((101 - speed) / 2) else none)]
            if cur ∈ st1.startVisited then Sum.inr (g, trace, events, cur)
            else
              let (ev, epar, eq') :=
                bdExpand rows cols cur g st1.endVisited st1.endParents rest
              Sum.inl { st1 with g := g, endQueue := eq', endVisited := ev,
                                 endParents := epar, trace := trace, events := events }
        match step2 with
        | Sum.inr (g, trace, events, meet) =>
          (match reconstructBidirectionalPath (rows * cols + 1)
              st1.startParents st1.endParents meet with
           | none => none
           | some path => some (successOut g trace events path sp ep))
        | Sum.inl st2 => bdLoop rows cols sp ep speed fuel st2

/-- `bidirectional(grid, start, end, animationSpeed)`. -/
def bidirectional (g0 : Grid) (start finish : Pos) (speed : ℚ) : Option RunOut :=
  let rows := gRows g0
  let cols := gCols g0
  let g := resetGrid resetCellDfs g0
  bdLoop rows cols start finish speed (2 * (rows * cols) + 3)
    { g := g, startQueue := [start], endQueue := [finish],
      startVisited := [start], endVisited := [finish],
      startParents := [], endParents := [], trace := [], events := [] }

/-- The `Algorithm` identifier enum of `src/types/pathfinding.ts`. -/
inductive Algorithm where
  | dijkstra | astar | bfs | dfs | greedy | bidirectional
deriving Repr, DecidableEq

/-- The exported `algorithms` record mapping each identifier to its
implementation (`src/unnamed/part_002`, lines 702–718). -/
def algorithms : Algorithm → Grid → Pos → Pos → ℚ → Option RunOut
  | .dijkstra => dijkstra
  | .astar => astar
  | .bfs => bfs
  | .dfs => dfs
  | .greedy => greedy
  | .bidirectional => bidirectional

/-! ## Maze generators (`src/lib/maze-generators.ts`)

Randomness is modelled by a stream of natural-number draws, one per
`Math.random()` call: `Math.random() < p` becomes `draw % 100 < 100·p` and
`Math.floor(Math.random() * n)` becomes `draw % n`, realising exactly the
outcome sets of the original expressions.  Calls guarded by
`onUpdate && …` are skipped entirely (short-circuit evaluation with the
absent callback), as are the pure `setTimeout` pacing delays. -/

/-- The stream of random draws. -/
abbrev Rng := List Nat

/-- Consume one draw (an exhausted stream yields 0; theorems quantify over
all streams, and refutations use concrete finite ones). -/
def draw : Rng → Nat × Rng
  | [] => (0, [])
  | x :: xs => (x, xs)

/-- `Math.floor(Math.random() * n)`. -/
def drawMod (n : Nat) (r : Rng) : Nat × Rng :=
  let (x, r) := draw r
  (if n = 0 then 0 else x % n, r)

/-- `Math.random() < t/100` for the percentage threshold `t`. -/
def drawLt (t : Nat) (r : Rng) : Bool × Rng :=
  let (x, r) := draw r
  (x % 100 < t, r)

/-- The `MazeType` identifier enum of `src/types/pathfinding.ts`. -/
inductive MazeType where
  | random | recursive | prim | kruskal | binary | sidewinder
deriving Repr, DecidableEq

/-- The fresh working copy taken by `generateMaze`: every cell keeps its
coordinates, `isStart`/`isEnd`/`weight` (and `heuristic`, untouched by the
spread) but clears walls, visitation, path, distance and parent. -/
def mazeResetCell (c : Cell) : Cell :=
  { c with isWall := false, isVisited := false, isPath := false,
           distance := none, previousNode := none }

/-- `generateRandomMaze`: each non-start/end cell independently becomes a
wall with probability 0.35 (the draw is short-circuited away on start/end
cells). -/
def generateRandomMaze (g : Grid) (rng : Rng) : Grid × Rng :=
  (allPositions (gRows g) (gCols g)).foldl
    (fun (acc : Grid × Rng) p =>
      let (g, rng) := acc
      let c := cell g p
      if !c.isStart && !c.isEnd then
        let (b, rng) := drawLt 35 rng
        if b then (updCell g p (fun c => { c with isWall := true }), rng)
        else (g, rng)
      else (g, rng))
    (g, rng)

/-- Set every non-start/end cell to wall (the fill step shared by the five
fill-then-carve generators). -/
def fillWalls (g : Grid) : Grid :=
  resetGrid (fun c => if !c.isStart && !c.isEnd then { c with isWall := true } else c) g

/-- Open the cell at `p` unless it is a start/end cell (the guard used by
every carving step). -/
def carve (g : Grid) (p : Pos) : Grid :=
  if !(cell g p).isStart && !(cell g p).isEnd then
    updCell g p (fun c => { c with isWall := false })
  else g

/-- `divide(grid, x1, y1, x2, y2, horizontal)`: the recursive-division
worker.  Chamber bounds are naturals; the JavaScript values `x - 1`/`y - 1`
can reach `-1`, but then the `< 2` base case fires for both the clamped and
the signed value, so `Nat` truncation is faithful.  The fuel dominates the
strictly decreasing chamber perimeter, so the `0` branch is unreachable
from `generateRecursiveMaze`. -/
def divide (fuel : Nat) (g : Grid) (x1 y1 x2 y2 : Nat) (horizontal : Bool)
    (rng : Rng) : Grid × Rng :=
  match fuel with
  | 0 => (g, rng)
  | fuel + 1 =>
    if x2 - x1 < 2 ∨ y2 - y1 < 2 then (g, rng)
    else if horizontal then
      let y := (y1 + y2) / 2
      let (h, rng) := drawMod (x2 - x1) rng
      let hole := h + x1
      let g := (List.range (x2 + 1 - x1)).foldl
        (fun g dx =>
          let x := x1 + dx
          if x ≠ hole then carve g (y, x) else g)
        g
      let (g, rng) := divide fuel g x1 y1 x2 (y - 1) (!horizontal) rng
      divide fuel g x1 (y + 1) x2 y2 (!horizontal) rng
    else
      let x := (x1 + x2) / 2
      let (h, rng) := drawMod (y2 - y1) rng
      let hole := h + y1
      let g := (List.range (y2 + 1 - y1)).foldl
        (fun g dy =>
          let y := y1 + dy
          if y ≠ hole then carve g (y, x) else g)
        g
      let (g, rng) := divide fuel g x1 y1 (x - 1) y2 (!horizontal) rng
      divide fuel g (x + 1) y1 x2 y2 (!horizontal) rng

/-- `generateRecursiveMaze`: fill with walls, then divide the whole grid. -/
def generateRecursiveMaze (g : Grid) (rng : Rng) : Grid × Rng :=
  let rows := gRows g
  let cols := gCols g
  divide (rows + cols + 2) (fillWalls g) 0 0 (cols - 1) (rows - 1) true rng

/-- The ±2-step neighbour positions used by the maze generators
(`addWalls` direction order). -/
def latticeNeighbors (rows cols : Nat) (p : Pos) : List Pos :=
  (if 2 ≤ p.1 then [(p.1 - 2, p.2)] else []) ++
  (if p.1 + 2 < rows then [(p.1 + 2, p.2)] else []) ++
  (if 2 ≤ p.2 then [(p.1, p.2 - 2)] else []) ++
  (if p.2 + 2 < cols then [(p.1, p.2 + 2)] else [])

/-- `addWalls(grid, row, col, walls)`: push the ±2 neighbours that are
walls and not start/end. -/
def addWalls (g : Grid) (p : Pos) (walls : List Pos) : List Pos :=
  (latticeNeighbors (gRows g) (gCols g) p).foldl
    (fun walls n =>
      let c := cell g n
      if c.isWall && !c.isStart && !c.isEnd then walls ++ [n] else walls)
    walls

/-- The `while (walls.length > 0)` loop of `generatePrimMaze`.  The fuel
dominates the potential `walls.length + 4 · openableWallCount`, which
strictly decreases, so the `0` branch is unreachable from
`generatePrimMaze`. -/
def primLoop (fuel : Nat) (g : Grid) (walls : List Pos) (rng : Rng) : Grid × Rng :=
  match fuel with
  | 0 => (g, rng)
  | fuel + 1 =>
    match walls with
    | [] => (g, rng)
    | _ :: _ =>
      let (i, rng) := drawMod walls.length rng
      let p := walls.getD i (0, 0)
      let walls := walls.eraseIdx i
      let c := cell g p
      if c.isWall && !c.isStart && !c.isEnd then
        let openNbrs := (latticeNeighbors (gRows g) (gCols g) p).filter
          (fun n => !(cell g n).isWall)
        if openNbrs.length = 1 then
          let g := updCell g p (fun c => { c with isWall := false })
          primLoop fuel g (addWalls g p walls) rng
        else primLoop fuel g walls rng
      else primLoop fuel g walls rng

/-- `generatePrimMaze`: fill with walls, open a random seed cell, then grow
from a random frontier (the wall between a frontier cell and its open
neighbour is never opened — see the connectivity analysis). -/
def generatePrimMaze (g : Grid) (rng : Rng) : Grid × Rng :=
  let rows := gRows g
  let cols := gCols g
  let g := fillWalls g
  let (sr, rng) := drawMod rows rng
  let (sc, rng) := drawMod cols rng
  let g :=
    if !(cell g (sr, sc)).isStart && !(cell g (sr, sc)).isEnd then
      updCell g (sr, sc) (fun c => { c with isWall := false })
    else g
  primLoop (4 * (rows * cols) + 8) g (addWalls g (sr, sc) []) rng

/-- Union-find `find` with path compression (`generateKruskalMaze`).  The
fuel dominates the parent-chain length of the (always acyclic) forest, so
the `0` branch is unreachable in the runs below; it returns the current
entry. -/
def ufFind (cols : Nat) : Nat → List (List Nat) → Nat → Nat → Nat × List (List Nat)
  | 0, parent, r, c => ((parent.getD r []).getD c (r * cols + c), parent)
  | fuel + 1, parent, r, c =>
    let id := r * cols + c
    let p := (parent.getD r []).getD c id
    if p ≠ id then
      let (root, parent) := ufFind cols fuel parent (p / cols) (p % cols)
      let parent := setIdx (fun row => setIdx (fun _ => root) c row) r parent
      (root, parent)
    else (p, parent)

/-- The Fisher–Yates shuffle of the edge list (`for i from length-1 down to
1: j ← random(i+1); swap`). -/
def shuffleEdges (edges : List (Pos × Pos)) (rng : Rng) : List (Pos × Pos) × Rng :=
  (List.range (edges.length - 1)).foldl
    (fun (acc : List (Pos × Pos) × Rng) k =>
      let (es, rng) := acc
      let i := es.length - 1 - k
      let (j, rng) := drawMod (i + 1) rng
      let ei := es.getD i ((0,0),(0,0))
      let ej := es.getD j ((0,0),(0,0))
      (((es.set i ej).set j ei), rng))
    (edges, rng)

/-- `generateKruskalMaze`: union-find over the 2-step lattice, shuffled
edges, opening both endpoints and the midpoint of each tree edge. -/
def generateKruskalMaze (g : Grid) (rng : Rng) : Grid × Rng :=
  let rows := gRows g
  let cols := gCols g
  let g := fillWalls g
  let parent0 : List (List Nat) :=
    (List.range rows).map (fun r => (List.range cols).map (fun c => r * cols + c))
  let edges : List (Pos × Pos) :=
    ((List.range rows).filter (fun r => r % 2 = 0)).flatMap (fun r =>
      ((List.range cols).filter (fun c => c % 2 = 0)).flatMap (fun c =>
        (if r + 2 < rows then [((r, c), (r + 2, c))] else []) ++
        (if c + 2 < cols then [((r, c), (r, c + 2))] else [])))
  let (edges, rng) := shuffleEdges edges rng
  let fuel := rows * cols + 1
  let (g, _) := edges.foldl
    (fun (acc : Grid × List (List Nat)) e =>
      let (g, parent) := acc
      let ((r1, c1), (r2, c2)) := e
      let (f1, parent) := ufFind cols fuel parent r1 c1
      let (f2, parent) := ufFind cols fuel parent r2 c2
      if f1 ≠ f2 then
        let (root1, parent) := ufFind cols fuel parent r1 c1
        let (root2, parent) := ufFind cols fuel parent r2 c2
        let parent :=
          if root1 ≠ root2 then
            setIdx (fun row => setIdx (fun _ => root1) (root2 % cols) row)
              (root2 / cols) parent
          else parent
        let g := carve g (r1, c1)
        let g := carve g (r2, c2)
        let g := carve g ((r1 + r2) / 2, (c1 + c2) / 2)
        (g, parent)
      else (g, parent))
    (g, parent0)
  (g, rng)

/-- `generateBinaryTreeMaze`: open each 2-step lattice cell and a wall
toward one random available direction among north and east. -/
def generateBinaryTreeMaze (g : Grid) (rng : Rng) : Grid × Rng :=
  let rows := gRows g
  let cols := gCols g
  let g := fillWalls g
  ((List.range rows).filter (fun r => r % 2 = 0)).foldl
    (fun (acc : Grid × Rng) r =>
      ((List.range cols).filter (fun c => c % 2 = 0)).foldl
        (fun (acc : Grid × Rng) c =>
          let (g, rng) := acc
          let g := carve g (r, c)
          let nbrs := (if r > 0 then [(r - 2, c)] else []) ++
                      (if c < cols - 2 then [(r, c + 2)] else [])
          match nbrs with
          | [] => (g, rng)
          | _ :: _ =>
            let (k, rng) := drawMod nbrs.length rng
            let chosen := nbrs.getD k (0, 0)
            let g := carve g ((r + chosen.1) / 2, (c + chosen.2) / 2)
            (g, rng))
        acc)
    (g, rng)

/-- `generateSidewinderMaze`: row-by-row 2-step sweep; extend the current
run east or close it with one random north carving (the top row always
extends; the random draws are short-circuited exactly as in the source). -/
def generateSidewinderMaze (g : Grid) (rng : Rng) : Grid × Rng :=
  let rows := gRows g
  let cols := gCols g
  let g := fillWalls g
  let out := ((List.range rows).filter (fun r => r % 2 = 0)).foldl
    (fun (acc : Grid × Rng) r =>
      let step := ((List.range cols).filter (fun c => c % 2 = 0)).foldl
        (fun (acc : Grid × Rng × Nat) c =>
          let (g, rng, runStart) := acc
          let g := carve g (r, c)
          let (carveEast, rng) :=
            if c < cols - 2 then
              if r = 0 then (true, rng)
              else drawLt 50 rng
            else (false, rng)
          if carveEast then
            (carve g (r, c + 1), rng, runStart)
          else if r > 0 then
            let (k, rng) := drawMod ((c - runStart) / 2 + 1) rng
            let runCol := runStart + k * 2
            (carve g (r - 1, runCol), rng, c + 2)
          else
            (g, rng, c + 2))
        (acc.1, acc.2, 0)
      (step.1, step.2.1))
    (g, rng)
  out

/-- `generateMaze(grid, type, animationSpeed)`: fresh working copy, then
dispatch on the maze type. -/
def generateMaze (g : Grid) (t : MazeType) (rng : Rng) : Grid :=
  let newGrid := resetGrid mazeResetCell g
  match t with
  | .random => (generateRandomMaze newGrid rng).1
  | .recursive => (generateRecursiveMaze newGrid rng).1
  | .prim => (generatePrimMaze newGrid rng).1
  | .kruskal => (generateKruskalMaze newGrid rng).1
  | .binary => (generateBinaryTreeMaze newGrid rng).1
  | .sidewinder => (generateSidewinderMaze newGrid rng).1

/-! ## Specification-side notions: valid open paths and their costs -/

/-- `p` is inside an `rows × cols` grid. -/
def inB (rows cols : Nat) (p : Pos) : Prop := p.1 < rows ∧ p.2 < cols

instance (rows cols : Nat) (p : Pos) : Decidable (inB rows cols p) := by
  unfold inB; infer_instance

/-- Orthogonal 4-adjacency of grid coordinates. -/
def adjacent (p q : Pos) : Prop :=
  (p.1 = q.1 ∧ (p.2 + 1 = q.2 ∨ q.2 + 1 = p.2)) ∨
  (p.2 = q.2 ∧ (p.1 + 1 = q.1 ∨ q.1 + 1 = p.1))

instance (p q : Pos) : Decidable (adjacent p q) := by
  unfold adjacent; infer_instance

theorem adjacent_symm {p q : Pos} (h : adjacent p q) : adjacent q p := by
  unfold adjacent at *; omega

/-- A valid open path: starts at `s`, ends at `e`, consecutive cells
orthogonally adjacent, all cells in bounds and not walls. -/
def VPath (g : Grid) (rows cols : Nat) (l : List Pos) (s e : Pos) : Prop :=
  l.head? = some s ∧ l.getLast? = some e ∧ l.Chain' adjacent ∧
  ∀ p ∈ l, inB rows cols p ∧ (cell g p).isWall = false

instance (g : Grid) (rows cols : Nat) (l : List Pos) (s e : Pos) :
    Decidable (VPath g rows cols l s e) := by
  unfold VPath; infer_instance

/-- The weighted cost of a path: the sum of the weights of the entered
cells (every cell but the first). -/
def pathCost (g : Grid) (l : List Pos) : Nat :=
  ((l.drop 1).map (fun p => (cell g p).weight)).sum

/-! ## Basic lemmas about grid reads and writes -/

theorem setIdx_get? (f : α → α) (n : Nat) (l : List α) (m : Nat) :
    (setIdx f n l).get? m = if m = n then (l.get? m).map f else l.get? m := by
  induction l generalizing n m with
  | nil => simp [setIdx]
  | cons a as ih =>
    cases n with
    | zero => cases m <;> simp [setIdx]
    | succ n =>
      cases m with
      | zero => simp [setIdx]
      | succ m => simpa [setIdx, Nat.succ_inj] using ih n m

theorem setIdx_length (f : α → α) (n : Nat) (l : List α) :
    (setIdx f n l).length = l.length := by
  induction l generalizing n with
  | nil => simp [setIdx]
  | cons a as ih => cases n <;> simp [setIdx, ih]

theorem cellAt?_updCell (g : Grid) (q : Pos) (f : Cell → Cell) (p : Pos) :
    cellAt? (updCell g q f) p =
      if p = q then (cellAt? g p).map f else cellAt? g p := by
  rcases p with ⟨pr, pc⟩
  rcases q with ⟨qr, qc⟩
  unfold cellAt? updCell
  simp only []
  rw [setIdx_get?]
  by_cases h1 : pr = qr
  · subst h1
    rw [if_pos rfl]
    cases hrow : g.get? pr with
    | none => simp [Prod.ext_iff]
    | some row =>
      simp only [Option.map_some', Option.some_bind]
      rw [setIdx_get?]
      by_cases h2 : pc = qc
      · subst h2; simp [Prod.ext_iff]
      · simp [Prod.ext_iff, h2]
  · rw [if_neg h1]
    simp [Prod.ext_iff, h1]

theorem cell_updCell (g : Grid) (q : Pos) (f : Cell → Cell) (p : Pos) :
    cell (updCell g q f) p =
      if p = q then ((cellAt? g p).map f).getD defaultCell else cell g p := by
  unfold cell
  rw [cellAt?_updCell]
  by_cases h : p = q <;> simp [h]

theorem cell_updCell_ne (g : Grid) (q : Pos) (f : Cell → Cell) (p : Pos)
    (h : p ≠ q) : cell (updCell g q f) p = cell g p := by
  rw [cell_updCell, if_neg h]

theorem cell_updCell_self (g : Grid) (q : Pos) (f : Cell → Cell)
    (h : (cellAt? g q).isSome) : cell (updCell g q f) q = f (cell g q) := by
  rw [cell_updCell, if_pos rfl]
  rcases Option.isSome_iff_exists.mp h with ⟨c, hc⟩
  unfold cell
  simp [hc]

theorem gRows_updCell (g : Grid) (q : Pos) (f : Cell → Cell) :
    gRows (updCell g q f) = gRows g := by
  unfold gRows updCell
  exact setIdx_length _ _ _

/-- A concrete flag-free unit-weight grid with the given wall set, used by
the counterexample and witness evaluations. -/
def testGridW (rows cols : Nat) (walls : List Pos) : Grid :=
  (List.range rows).map (fun r => (List.range cols).map (fun c =>
    { row := r, col := c, isStart := false, isEnd := false,
      isWall := decide ((r,c) ∈ walls), isVisited := false, isPath := false,
      distance := none, heuristic := 0, weight := 1, previousNode := none }))

/-- The wall cells of a grid, row-major. -/
def wallsOf (g : Grid) : List Pos :=
  (allPositions (gRows g) (gCols g)).filter (fun p => (cell g p).isWall)

theorem cellAt?_isSome_iff (g : Grid) (rows cols : Nat)
    (hrect : RectGrid g rows cols) (p : Pos) :
    (cellAt? g p).isSome ↔ inB rows cols p := by
  rcases hrect with ⟨hlen, hrow⟩
  unfold cellAt? inB
  constructor
  · intro h
    rcases Option.isSome_iff_exists.mp h with ⟨c, hc⟩
    rcases Option.bind_eq_some.mp hc with ⟨row, hrow', hc'⟩
    have h1 : p.1 < g.length := List.get?_eq_some.mp hrow' |>.1
    have h2 : p.2 < row.length := List.get?_eq_some.mp hc' |>.1
    refine ⟨hlen ▸ h1, ?_⟩
    have := hrow row (List.get?_mem hrow')
    omega
  · rintro ⟨h1, h2⟩
    have h1' : p.1 < g.length := hlen ▸ h1
    rcases List.get?_eq_get h1' ▸ Option.isSome_some with _
    cases hrow' : g.get? p.1 with
    | none => exact absurd (List.get?_eq_none.mp hrow') (by omega)
    | some row =>
      have hlen2 : row.length = cols := hrow row (List.get?_mem hrow')
      simp only [Option.some_bind]
      rw [Option.isSome_iff_ne_none]
      intro hnone
      exact absurd (List.get?_eq_none.mp hnone) (by omega)

/-! ## Result-shape and suspension-event characterisation -/

/-- The bookkeeping every returned `Result` satisfies: `pathLength` and
`nodesInPath` both equal the number of nodes of the returned path,
`nodesVisited` equals the length of the visited trace, and a failure
carries an empty path. -/
def StatsOk (out : RunOut) : Prop :=
  out.result.stats.pathLength = out.result.path.length ∧
  out.result.stats.nodesInPath = out.result.path.length ∧
  out.result.stats.nodesVisited = out.result.visitedNodes.length ∧
  (out.result.stats.pathFound = false → out.result.path = []) ∧
  (out.result.stats.pathFound = true ∨ out.result.stats.pathFound = false)

theorem statsOk_successOut (g : Grid) (trace : List Pos) (events : List Ev)
    (path : List Pos) (sp ep : Pos) : StatsOk (successOut g trace events path sp ep) := by
  refine ⟨rfl, rfl, rfl, ?_, Or.inl rfl⟩
  intro h
  exact absurd h (by simp [successOut])

theorem statsOk_failureOut (g : Grid) (trace : List Pos) (events : List Ev) :
    StatsOk (failureOut g trace events) :=
  ⟨rfl, rfl, rfl, fun _ => rfl, Or.inr rfl⟩

/-- Every suspension event in `events` concerns a node satisfying `cond`
with the fixed amount `amt`, and nodes failing `cond` are recorded without
suspension. -/
def EvsOk (cond : Pos → Bool) (amt : ℚ) (events : List Ev) : Prop :=
  ∀ ev ∈ events, ev.2 = if cond ev.1 then some amt else none

theorem evsOk_nil (cond : Pos → Bool) (amt : ℚ) : EvsOk cond amt [] := by
  intro ev hev; cases hev

theorem evsOk_append1 (cond : Pos → Bool) (amt : ℚ) (events : List Ev) (ev : Ev)
    (h : EvsOk cond amt events) (hev : ev.2 = if cond ev.1 then some amt else none) :
    EvsOk cond amt (events ++ [ev]) := by
  intro e he
  rcases List.mem_append.mp he with he | he
  · exact h e he
  · rcases List.mem_singleton.mp he with rfl
    exact hev

/-- The standard delay guard `cur ≠ start ∧ cur ≠ end`, in decidable form. -/
def stdCond (sp ep : Pos) : Pos → Bool := fun p => decide (p ≠ sp) && decide (p ≠ ep)

/-- `dfsRecursive`'s delay guard `cur ≠ end` (the start node is *not*
exempted by the source). -/
def dfsCond (ep : Pos) : Pos → Bool := fun p => decide (p ≠ ep)

theorem stdCond_if (sp ep p : Pos) (a : ℚ) :
    (if p ≠ sp ∧ p ≠ ep then some a else (none : Option ℚ)) =
      if stdCond sp ep p then some a else none := by
  unfold stdCond
  by_cases h1 : p = sp <;> by_cases h2 : p = ep <;> simp [h1, h2]

theorem dfsCond_if (ep p : Pos) (a : ℚ) :
    (if p ≠ ep then some a else (none : Option ℚ)) =
      if dfsCond ep p then some a else none := by
  unfold dfsCond
  by_cases h : p = ep <;> simp [h]

/-- The per-algorithm delay guard of the amended timing claim. -/
def delayCond : Algorithm → Pos → Pos → Pos → Bool
  | .dfs => fun _sp ep p => dfsCond ep p
  | _ => fun sp ep p => stdCond sp ep p

/-- The per-algorithm suspension amount. -/
def delayAmount : Algorithm → ℚ → ℚ
  | .bidirectional => fun speed => (101 - speed) / 2
  | _ => fun speed => 101 - speed

theorem dijkstraLoop_shape (rows cols : Nat) (sp ep : Pos) (speed : ℚ) :
    ∀ (fuel : Nat) (g : Grid) (unvisited trace : List Pos) (events : List Ev)
      (out : RunOut),
      EvsOk (stdCond sp ep) (101 - speed) events →
      dijkstraLoop rows cols sp ep speed fuel g unvisited trace events = some out →
      StatsOk out ∧ EvsOk (stdCond sp ep) (101 - speed) out.events := by
  intro fuel
  induction fuel with
  | zero => intro g unvisited trace events out _ h; simp [dijkstraLoop] at h
  | succ fuel ih =>
    intro g unvisited trace events out hev h
    cases unvisited with
    | nil =>
      simp only [dijkstraLoop, Option.some.injEq] at h
      subst h
      exact ⟨statsOk_failureOut _ _ _, hev⟩
    | cons a l =>
      simp only [dijkstraLoop] at h
      split at h
      · exact absurd h (by simp)
      · split at h
        · rcases Option.some.inj h with rfl
          exact ⟨statsOk_failureOut _ _ _, hev⟩
        · rename_i cur rest hsort hwall
          have hev' : EvsOk (stdCond sp ep) (101 - speed)
              (events ++ [(cur, if cur ≠ sp ∧ cur ≠ ep then some (101 - speed) else none)]) :=
            evsOk_append1 _ _ _ _ hev (stdCond_if sp ep cur (101 - speed))
          split at h
          · split at h
            · exact absurd h (by simp)
            · rcases Option.some.inj h with rfl
              exact ⟨statsOk_successOut _ _ _ _ _ _, hev'⟩
          · exact ih _ _ _ _ _ hev' h

/-- C10 helper for a single algorithm applied through the wrapper. -/
theorem dijkstra_shape (g : Grid) (sp ep : Pos) (speed : ℚ) (out : RunOut)
    (h : dijkstra g sp ep speed = some out) :
    StatsOk out ∧ EvsOk (stdCond sp ep) (101 - speed) out.events := by
  unfold dijkstra at h
  exact dijkstraLoop_shape _ _ _ _ _ _ _ _ _ _ _ (evsOk_nil _ _) h

theorem astarLoop_shape (rows cols : Nat) (sp ep : Pos) (speed : ℚ) :
    ∀ (fuel : Nat) (g : Grid) (openSet trace : List Pos) (events : List Ev)
      (out : RunOut),
      EvsOk (stdCond sp ep) (101 - speed) events →
      astarLoop rows cols sp ep speed fuel g openSet trace events = some out →
      StatsOk out ∧ EvsOk (stdCond sp ep) (101 - speed) out.events := by
  intro fuel
  induction fuel with
  | zero => intro g openSet trace events out _ h; simp [astarLoop] at h
  | succ fuel ih =>
    intro g openSet trace events out hev h
    cases openSet with
    | nil =>
      simp only [astarLoop, Option.some.injEq] at h
      subst h
      exact ⟨statsOk_failureOut _ _ _, hev⟩
    | cons a l =>
      simp only [astarLoop] at h
      split at h
      · exact absurd h (by simp)
      · rename_i cur rest hsort
        split at h
        · exact ih _ _ _ _ _ hev h
        · have hev' : EvsOk (stdCond sp ep) (101 - speed)
              (events ++ [(cur, if cur ≠ sp ∧ cur ≠ ep then some (101 - speed) else none)]) :=
            evsOk_append1 _ _ _ _ hev (stdCond_if sp ep cur (101 - speed))
          split at h
          · split at h
            · exact absurd h (by simp)
            · rcases Option.some.inj h with rfl
              exact ⟨statsOk_successOut _ _ _ _ _ _, hev'⟩
          · exact ih _ _ _ _ _ hev' h

theorem astar_shape (g : Grid) (sp ep : Pos) (speed : ℚ) (out : RunOut)
    (h : astar g sp ep speed = some out) :
    StatsOk out ∧ EvsOk (stdCond sp ep) (101 - speed) out.events := by
  unfold astar at h
  exact astarLoop_shape _ _ _ _ _ _ _ _ _ _ _ (evsOk_nil _ _) h

theorem bfsLoop_shape (rows cols : Nat) (sp ep : Pos) (speed : ℚ) :
    ∀ (fuel : Nat) (g : Grid) (queue trace : List Pos) (events : List Ev)
      (out : RunOut),
      EvsOk (stdCond sp ep) (101 - speed) events →
      bfsLoop rows cols sp ep speed fuel g queue trace events = some out →
      StatsOk out ∧ EvsOk (stdCond sp ep) (101 - speed) out.events := by
  intro fuel
  induction fuel with
  | zero => intro g queue trace events out _ h; simp [bfsLoop] at h
  | succ fuel ih =>
    intro g queue trace events out hev h
    cases queue with
    | nil =>
      simp only [bfsLoop, Option.some.injEq] at h
      subst h
      exact ⟨statsOk_failureOut _ _ _, hev⟩
    | cons cur rest =>
      simp only [bfsLoop] at h
      have hev' : EvsOk (stdCond sp ep) (101 - speed)
          (events ++ [(cur, if cur ≠ sp ∧ cur ≠ ep then some (101 - speed) else none)]) :=
        evsOk_append1 _ _ _ _ hev (stdCond_if sp ep cur (101 - speed))
      generalize hE : events ++
          [(cur, if cur ≠ sp ∧ cur ≠ ep then some (101 - speed) else none)] = E at h hev'
      split at h
      · split at h
        · exact absurd h (by simp)
        · rcases Option.some.inj h with rfl
          exact ⟨statsOk_successOut _ _ _ _ _ _, hev'⟩
      · exact ih _ _ _ _ _ hev' h

theorem bfs_shape (g : Grid) (sp ep : Pos) (speed : ℚ) (out : RunOut)
    (h : bfs g sp ep speed = some out) :
    StatsOk out ∧ EvsOk (stdCond sp ep) (101 - speed) out.events := by
  unfold bfs at h
  exact bfsLoop_shape _ _ _ _ _ _ _ _ _ _ _ (evsOk_nil _ _) h

theorem greedyLoop_shape (rows cols : Nat) (sp ep : Pos) (speed : ℚ) :
    ∀ (fuel : Nat) (g : Grid) (openSet trace : List Pos) (events : List Ev)
      (out : RunOut),
      EvsOk (stdCond sp ep) (101 - speed) events →
      greedyLoop rows cols sp ep speed fuel g openSet trace events = some out →
      StatsOk out ∧ EvsOk (stdCond sp ep) (101 - speed) out.events := by
  intro fuel
  induction fuel with
  | zero => intro g openSet trace events out _ h; simp [greedyLoop] at h
  | succ fuel ih =>
    intro g openSet trace events out hev h
    cases openSet with
    | nil =>
      simp only [greedyLoop, Option.some.injEq] at h
      subst h
      exact ⟨statsOk_failureOut _ _ _, hev⟩
    | cons a l =>
      simp only [greedyLoop] at h
      split at h
      · exact absurd h (by simp)
      · rename_i cur rest hsort
        split at h
        · exact ih _ _ _ _ _ hev h
        · have hev' : EvsOk (stdCond sp ep) (101 - speed)
              (events ++ [(cur, if cur ≠ sp ∧ cur ≠ ep then some (101 - speed) else none)]) :=
            evsOk_append1 _ _ _ _ hev (stdCond_if sp ep cur (101 - speed))
          split at h
          · split at h
            · exact absurd h (by simp)
            · rcases Option.some.inj h with rfl
              exact ⟨statsOk_successOut _ _ _ _ _ _, hev'⟩
          · exact ih _ _ _ _ _ hev' h

theorem greedy_shape (g : Grid) (sp ep : Pos) (speed : ℚ) (out : RunOut)
    (h : greedy g sp ep speed = some out) :
    StatsOk out ∧ EvsOk (stdCond sp ep) (101 - speed) out.events := by
  unfold greedy at h
  exact greedyLoop_shape _ _ _ _ _ _ _ _ _ _ _ (evsOk_nil _ _) h

theorem dfsNeighbors_events (ep : Pos) (speed : ℚ)
    (rec : Grid → List Pos → List Ev → Pos → Option (Bool × Grid × List Pos × List Ev))
    (hrec : ∀ g trace events n res, EvsOk (dfsCond ep) (101 - speed) events →
      rec g trace events n = some res →
      EvsOk (dfsCond ep) (101 - speed) res.2.2.2)
    (cur : Pos) :
    ∀ (ns : List Pos) (g : Grid) (trace : List Pos) (events : List Ev)
      (res : Bool × Grid × List Pos × List Ev),
      EvsOk (dfsCond ep) (101 - speed) events →
      dfsNeighbors rec cur g trace events ns = some res →
      EvsOk (dfsCond ep) (101 - speed) res.2.2.2 := by
  intro ns
  induction ns with
  | nil =>
    intro g trace events res hev h
    rcases Option.some.inj h with rfl
    exact hev
  | cons n ns ih =>
    intro g trace events res hev h
    simp only [dfsNeighbors] at h
    split at h
    · split at h
      · exact absurd h (by simp)
      · rename_i g1 t1 e1 heq
        rcases Option.some.inj h with rfl
        exact hrec _ _ _ _ _ hev heq
      · rename_i g1 t1 e1 heq
        exact ih _ _ _ _ (hrec _ _ _ _ _ hev heq) h
    · exact ih _ _ _ _ hev h

theorem dfsRecursive_events (rows cols : Nat) (ep : Pos) (speed : ℚ) :
    ∀ (fuel : Nat) (g : Grid) (trace : List Pos) (events : List Ev) (cur : Pos)
      (res : Bool × Grid × List Pos × List Ev),
      EvsOk (dfsCond ep) (101 - speed) events →
      dfsRecursive rows cols ep speed fuel g trace events cur = some res →
      EvsOk (dfsCond ep) (101 - speed) res.2.2.2 := by
  intro fuel
  induction fuel with
  | zero => intro g trace events cur res _ h; simp [dfsRecursive] at h
  | succ fuel ih =>
    intro g trace events cur res hev h
    simp only [dfsRecursive] at h
    split at h
    · rcases Option.some.inj h with rfl
      exact hev
    · have hev' : EvsOk (dfsCond ep) (101 - speed)
          (events ++ [(cur, if cur ≠ ep then some (101 - speed) else none)]) :=
        evsOk_append1 _ _ _ _ hev (dfsCond_if ep cur (101 - speed))
      generalize hE : events ++
          [(cur, if cur ≠ ep then some (101 - speed) else none)] = E at h hev'
      split at h
      · rcases Option.some.inj h with rfl
        exact hev'
      · exact dfsNeighbors_events ep speed _ (fun g t e n r he hq => ih g t e n r he hq)
          cur _ _ _ _ _ hev' h

theorem dfs_shape (g : Grid) (sp ep : Pos) (speed : ℚ) (out : RunOut)
    (h : dfs g sp ep speed = some out) :
    StatsOk out ∧ EvsOk (dfsCond ep) (101 - speed) out.events := by
  simp only [dfs] at h
  split at h
  · exact absurd h (by simp)
  · rename_i found g' trace events heq
    have hevents : EvsOk (dfsCond ep) (101 - speed) events :=
      dfsRecursive_events _ _ _ _ _ _ _ _ _ _ (evsOk_nil _ _) heq
    split at h
    · split at h
      · exact absurd h (by simp)
      · rcases Option.some.inj h with rfl
        exact ⟨statsOk_successOut _ _ _ _ _ _, hevents⟩
    · rcases Option.some.inj h with rfl
      exact ⟨statsOk_failureOut _ _ _, hevents⟩

theorem bdLoop_shape (rows cols : Nat) (sp ep : Pos) (speed : ℚ) :
    ∀ (fuel : Nat) (st : BdState) (out : RunOut),
      EvsOk (stdCond sp ep) ((101 - speed) / 2) st.events →
      bdLoop rows cols sp ep speed fuel st = some out →
      StatsOk out ∧ EvsOk (stdCond sp ep) ((101 - speed) / 2) out.events := by
  intro fuel
  induction fuel with
  | zero => intro st out _ h; simp [bdLoop] at h
  | succ fuel ih =>
    intro st out hev h
    simp only [bdLoop] at h
    split at h
    · rcases Option.some.inj h with rfl
      exact ⟨statsOk_failureOut _ _ _, hev⟩
    · split at h
      · -- step1 produced a meeting (Sum.inr)
        rename_i g1 t1 e1 meet hstep
        -- analyse how step1 was built to learn the events invariant
        have he1 : EvsOk (stdCond sp ep) ((101 - speed) / 2) e1 := by
          revert hstep
          cases hq : st.startQueue with
          | nil => intro hstep; cases hstep
          | cons cur rest =>
            intro hstep
            by_cases hmem : cur ∈ st.endVisited
            · simp only [hq, hmem, if_pos] at hstep
              rcases Sum.inr.inj hstep with heq
              have := congrArg (fun x => x.2.2.1) heq
              simp at this
              subst this
              exact evsOk_append1 _ _ _ _ hev (stdCond_if sp ep cur ((101 - speed) / 2))
            · simp only [hq, hmem, if_neg, not_false_iff] at hstep
              cases hstep
        split at h
        · exact absurd h (by simp)
        · rcases Option.some.inj h with rfl
          exact ⟨statsOk_successOut _ _ _ _ _ _, he1⟩
      · -- step1 continued with state st1
        rename_i st1 hstep
        have hst1 : EvsOk (stdCond sp ep) ((101 - speed) / 2) st1.events := by
          revert hstep
          cases hq : st.startQueue with
          | nil =>
            intro hstep
            rcases Sum.inl.inj hstep with rfl
            exact hev
          | cons cur rest =>
            intro hstep
            by_cases hmem : cur ∈ st.endVisited
            · simp only [hq, hmem, if_pos] at hstep
              cases hstep
            · simp only [hq, hmem, if_neg, not_false_iff] at hstep
              rcases Sum.inl.inj hstep with rfl
              exact evsOk_append1 _ _ _ _ hev (stdCond_if sp ep cur ((101 - speed) / 2))
        split at h
        · rename_i g2 t2 e2 meet hstep2
          have he2 : EvsOk (stdCond sp ep) ((101 - speed) / 2) e2 := by
            revert hstep2
            cases hq : st1.endQueue with
            | nil => intro hstep2; cases hstep2
            | cons cur rest =>
              intro hstep2
              by_cases hmem : cur ∈ st1.startVisited
              · simp only [hq, hmem, if_pos] at hstep2
                rcases Sum.inr.inj hstep2 with heq
                have := congrArg (fun x => x.2.2.1) heq
                simp at this
                subst this
                exact evsOk_append1 _ _ _ _ hst1 (stdCond_if sp ep cur ((101 - speed) / 2))
              · simp only [hq, hmem, if_neg, not_false_iff] at hstep2
                cases hstep2
          split at h
          · exact absurd h (by simp)
          · rcases Option.some.inj h with rfl
            exact ⟨statsOk_successOut _ _ _ _ _ _, he2⟩
        · rename_i st2 hstep2
          have hst2 : EvsOk (stdCond sp ep) ((101 - speed) / 2) st2.events := by
            revert hstep2
            cases hq : st1.endQueue with
            | nil =>
              intro hstep2
              rcases Sum.inl.inj hstep2 with rfl
              exact hst1
            | cons cur rest =>
              intro hstep2
              by_cases hmem : cur ∈ st1.startVisited
              · simp only [hq, hmem, if_pos] at hstep2
                cases hstep2
              · simp only [hq, hmem, if_neg, not_false_iff] at hstep2
                rcases Sum.inl.inj hstep2 with rfl
                exact evsOk_append1 _ _ _ _ hst1 (stdCond_if sp ep cur ((101 - speed) / 2))
          exact ih _ _ hst2 h

theorem bidirectional_shape (g : Grid) (sp ep : Pos) (speed : ℚ) (out : RunOut)
    (h : bidirectional g sp ep speed = some out) :
    StatsOk out ∧ EvsOk (stdCond sp ep) ((101 - speed) / 2) out.events := by
  unfold bidirectional at h
  exact bdLoop_shape _ _ _ _ _ _ _ _ (evsOk_nil _ _) h

/-- Extract the `some`-form of a nonempty option for witness instantiation. -/
theorem getD_eq_some {α : Type _} {o : Option α} (d : α) (h : o.isSome = true) :
    o = some (o.getD d) := by
  cases o with
  | none => cases h
  | some v => rfl

/-- A throwaway `RunOut` used only as the default of `Option.getD` in
witness statements. -/
def dummyOut : RunOut := failureOut [] [] []

/-! ## Claim C10: statistics consistency -/

/-- C10: in every `Result` returned by any of the six algorithms,
`stats.pathLength` and `stats.nodesInPath` both equal the number of nodes
of the returned path, and `stats.nodesVisited` equals the number of nodes
of the returned visited sequence. -/
theorem C10_stats_consistent (alg : Algorithm) (g : Grid) (sp ep : Pos)
    (speed : ℚ) (out : RunOut) (h : algorithms alg g sp ep speed = some out) :
    out.result.stats.pathLength = out.result.path.length ∧
    out.result.stats.nodesInPath = out.result.path.length ∧
    out.result.stats.nodesVisited = out.result.visitedNodes.length := by
  cases alg with
  | dijkstra => rcases (dijkstra_shape g sp ep speed out h).1 with ⟨h1, h2, h3, _⟩
                exact ⟨h1, h2, h3⟩
  | astar => rcases (astar_shape g sp ep speed out h).1 with ⟨h1, h2, h3, _⟩
             exact ⟨h1, h2, h3⟩
  | bfs => rcases (bfs_shape g sp ep speed out h).1 with ⟨h1, h2, h3, _⟩
           exact ⟨h1, h2, h3⟩
  | dfs => rcases (dfs_shape g sp ep speed out h).1 with ⟨h1, h2, h3, _⟩
           exact ⟨h1, h2, h3⟩
  | greedy => rcases (greedy_shape g sp ep speed out h).1 with ⟨h1, h2, h3, _⟩
              exact ⟨h1, h2, h3⟩
  | bidirectional => rcases (bidirectional_shape g sp ep speed out h).1 with ⟨h1, h2, h3, _⟩
                     exact ⟨h1, h2, h3⟩

/-- Witness for C10: the statistics-consistency theorem applied to a
concrete successful `bfs` run on a 1×2 grid. -/
theorem C10_stats_consistent_witness :
    ((algorithms .bfs (testGridW 1 2 []) (0, 0) (0, 1) 50).getD dummyOut).result.stats.pathLength =
      ((algorithms .bfs (testGridW 1 2 []) (0, 0) (0, 1) 50).getD dummyOut).result.path.length ∧
    ((algorithms .bfs (testGridW 1 2 []) (0, 0) (0, 1) 50).getD dummyOut).result.stats.nodesInPath =
      ((algorithms .bfs (testGridW 1 2 []) (0, 0) (0, 1) 50).getD dummyOut).result.path.length ∧
    ((algorithms .bfs (testGridW 1 2 []) (0, 0) (0, 1) 50).getD dummyOut).result.stats.nodesVisited =
      ((algorithms .bfs (testGridW 1 2 []) (0, 0) (0, 1) 50).getD dummyOut).result.visitedNodes.length :=
  C10_stats_consistent .bfs (testGridW 1 2 []) (0, 0) (0, 1) 50 _
    (getD_eq_some dummyOut (by decide))

/-! ## Claim C9: the per-visit suspension guard -/

/-- C9 counterexample: the claim says every algorithm visits the start node
without the per-visit suspension.  In `dfsRecursive` the guard is only
`currentNode !== endNode`, so on a 1×2 grid with start (0,0) and end (0,1)
the start node's visit *does* suspend (the boolean marks which events carry
a `setTimeout` amount). -/
theorem C9_dfs_delays_start :
    (dfs (testGridW 1 2 []) (0, 0) (0, 1) 50).map
      (fun o => o.events.map (fun ev => (ev.1, ev.2.isSome))) =
      some [((0, 0), true), ((0, 1), false)] := by
  decide

/-- C9 (amended): in `dijkstra`, `astar`, `bfs`, `greedy` and
`bidirectional` the per-visit suspension of `101 - speed` time units
(`(101 - speed)/2` per side for `bidirectional`) occurs exactly when the
processed node is neither the start nor the end node; in `dfs` the guard
exempts only the end node, so the start node *is* delayed (`delayCond` and
`delayAmount` record these per-algorithm guards and amounts). -/
theorem C9_delay_guard_amended (alg : Algorithm) (g : Grid) (sp ep : Pos)
    (speed : ℚ) (out : RunOut) (h : algorithms alg g sp ep speed = some out) :
    ∀ ev ∈ out.events,
      ev.2 = if delayCond alg sp ep ev.1 then some (delayAmount alg speed) else none := by
  cases alg with
  | dijkstra => exact (dijkstra_shape g sp ep speed out h).2
  | astar => exact (astar_shape g sp ep speed out h).2
  | bfs => exact (bfs_shape g sp ep speed out h).2
  | dfs => exact (dfs_shape g sp ep speed out h).2
  | greedy => exact (greedy_shape g sp ep speed out h).2
  | bidirectional => exact (bidirectional_shape g sp ep speed out h).2

/-- The head of a nonempty list is a member (default-headed form, for
witness instantiation without evaluating the element). -/
theorem headD_mem_of_isEmpty_false {α : Type _} (l : List α) (d : α)
    (h : l.isEmpty = false) : l.headD d ∈ l := by
  cases l with
  | nil => cases h
  | cons a as => exact List.mem_cons_self a as

/-- Witness for the amended C9: the guard equation instantiated at the first
event of a concrete `dfs` run (whose processed node is the start node, which
is delayed). -/
theorem C9_delay_guard_amended_witness :
    (((algorithms .dfs (testGridW 1 2 []) (0, 0) (0, 1) 50).getD dummyOut).events.headD
        ((0, 0), none)).2 =
      if delayCond .dfs (0, 0) (0, 1)
           (((algorithms .dfs (testGridW 1 2 []) (0, 0) (0, 1) 50).getD dummyOut).events.headD
               ((0, 0), none)).1
      then some (delayAmount .dfs 50) else none :=
  C9_delay_guard_amended .dfs (testGridW 1 2 []) (0, 0) (0, 1) 50 _
    (getD_eq_some dummyOut (by decide)) _
    (headD_mem_of_isEmpty_false _ _ (by decide))

/-! ## Claim C6: the maze generators' preservation invariant -/

theorem cellAt?_resetGrid (f : Cell → Cell) (g : Grid) (p : Pos) :
    cellAt? (resetGrid f g) p = (cellAt? g p).map f := by
  unfold cellAt? resetGrid
  rw [List.get?_map]
  cases g.get? p.1 with
  | none => rfl
  | some row => simp [List.get?_map]

theorem cell_updCell' (g : Grid) (q : Pos) (f : Cell → Cell) (p : Pos) :
    cell (updCell g q f) p =
      if p = q ∧ (cellAt? g p).isSome then f (cell g p) else cell g p := by
  rw [cell_updCell]
  by_cases h : p = q
  · subst h
    cases hc : cellAt? g p <;> simp [cell, hc]
  · simp [h]

theorem cell_resetGrid' (f : Cell → Cell) (g : Grid) (p : Pos) :
    cell (resetGrid f g) p =
      if (cellAt? g p).isSome then f (cell g p) else cell g p := by
  unfold cell
  rw [cellAt?_resetGrid]
  cases hc : cellAt? g p <;> simp

/-- Generic preservation of a predicate through a left fold. -/
theorem foldl_preserve {P : β → Prop} {f : β → α → β}
    (h : ∀ b a, P b → P (f b a)) :
    ∀ (l : List α) (b : β), P b → P (l.foldl f b) := by
  intro l
  induction l with
  | nil => intro b hb; exact hb
  | cons a as ih => intro b hb; exact ih (f b a) (h b a hb)

/-- The allowed states of one cell during maze generation, relative to its
state `c0` in the caller's grid: `isStart`/`isEnd`/`weight` agree with
`c0`, the transient search state stays reset, and a start/end cell is never
a wall. -/
def SafeCell (c0 c : Cell) : Prop :=
  c.isStart = c0.isStart ∧ c.isEnd = c0.isEnd ∧ c.weight = c0.weight ∧
  c.isVisited = false ∧ c.isPath = false ∧ c.distance = none ∧
  c.previousNode = none ∧
  (c0.isStart = true ∨ c0.isEnd = true → c.isWall = false)

/-- The running invariant of every maze generator against the caller's grid
`g0`. -/
def MazeOk (g0 g : Grid) : Prop :=
  ∀ p : Pos, SafeCell (cell g0 p) (cell g p)

theorem safeCell_wall (c0 c : Cell) (b : Bool) (h : SafeCell c0 c)
    (hguard : c0.isStart = true ∨ c0.isEnd = true → b = false) :
    SafeCell c0 { c with isWall := b } := by
  rcases h with ⟨h1, h2, h3, h4, h5, h6, h7, _⟩
  exact ⟨h1, h2, h3, h4, h5, h6, h7, hguard⟩

theorem mazeOk_start (g0 : Grid) : MazeOk g0 (resetGrid mazeResetCell g0) := by
  intro p
  rw [cell_resetGrid']
  split
  · exact ⟨rfl, rfl, rfl, rfl, rfl, rfl, rfl, fun _ => rfl⟩
  · rename_i hnone
    have : cellAt? g0 p = none := Option.not_isSome_iff_eq_none.mp hnone
    have hd : cell g0 p = defaultCell := by unfold cell; rw [this]; rfl
    rw [hd]
    exact ⟨rfl, rfl, rfl, rfl, rfl, rfl, rfl, fun _ => rfl⟩

theorem mazeOk_updWall (g0 g : Grid) (p : Pos) (b : Bool)
    (hok : MazeOk g0 g)
    (hguard : (cell g0 p).isStart = true ∨ (cell g0 p).isEnd = true → b = false) :
    MazeOk g0 (updCell g p (fun c => { c with isWall := b })) := by
  intro q
  rw [cell_updCell']
  split
  · rename_i hq
    rcases hq with ⟨hq, _⟩
    subst hq
    exact safeCell_wall _ _ b (hok q) hguard
  · exact hok q

theorem mazeOk_carve (g0 g : Grid) (p : Pos) (hok : MazeOk g0 g) :
    MazeOk g0 (carve g p) := by
  unfold carve
  split
  · exact mazeOk_updWall g0 g p false hok (fun _ => rfl)
  · exact hok

theorem mazeOk_fillWalls (g0 g : Grid) (hok : MazeOk g0 g) :
    MazeOk g0 (fillWalls g) := by
  intro p
  unfold fillWalls
  rw [cell_resetGrid']
  split
  · rcases hok p with ⟨h1, h2, h3, h4, h5, h6, h7, h8⟩
    split
    · rename_i hse
      refine ⟨h1, h2, h3, h4, h5, h6, h7, ?_⟩
      intro hflag
      exfalso
      rcases hflag with hflag | hflag
      · rw [← h1] at hflag; simp [hflag] at hse
      · rw [← h2] at hflag; simp [hflag] at hse
    · exact hok p
  · exact hok p

theorem mazeOk_random (g0 g : Grid) (rng : Rng) (hok : MazeOk g0 g) :
    MazeOk g0 (generateRandomMaze g rng).1 := by
  unfold generateRandomMaze
  refine foldl_preserve
    (P := fun (acc : Grid × Rng) => MazeOk g0 acc.1) ?_ _ _ hok
  rintro ⟨g', rng'⟩ p hp
  dsimp only
  split
  · rename_i hguard
    split
    · refine mazeOk_updWall g0 g' p true hp ?_
      intro hflag
      exfalso
      rcases hp p with ⟨h1, h2, _⟩
      rcases hflag with hflag | hflag
      · rw [← h1] at hflag; simp [hflag] at hguard
      · rw [← h2] at hflag; simp [hflag] at hguard
    · exact hp
  · exact hp

theorem mazeOk_divide (g0 : Grid) (fuel : Nat) :
    ∀ (g : Grid) (x1 y1 x2 y2 : Nat) (horizontal : Bool) (rng : Rng),
    MazeOk g0 g → MazeOk g0 (divide fuel g x1 y1 x2 y2 horizontal rng).1 := by
  induction fuel with
  | zero => intro g _ _ _ _ _ _ hok; exact hok
  | succ fuel ih =>
    intro g x1 y1 x2 y2 horizontal rng hok
    unfold divide
    split
    · exact hok
    · split
      · apply ih
        apply ih
        refine foldl_preserve ?_ _ _ hok
        intro g' dx hg'
        dsimp only
        repeat' split
        all_goals first
          | exact mazeOk_carve g0 g' _ hg'
          | exact hg'
      · apply ih
        apply ih
        refine foldl_preserve ?_ _ _ hok
        intro g' dy hg'
        dsimp only
        repeat' split
        all_goals first
          | exact mazeOk_carve g0 g' _ hg'
          | exact hg'

theorem mazeOk_primLoop (g0 : Grid) (fuel : Nat) :
    ∀ (g : Grid) (walls : List Pos) (rng : Rng),
    MazeOk g0 g → MazeOk g0 (primLoop fuel g walls rng).1 := by
  induction fuel with
  | zero => intro g _ _ hok; exact hok
  | succ fuel ih =>
    intro g walls rng hok
    unfold primLoop
    split
    · exact hok
    · dsimp only
      split
      · split
        · apply ih
          exact mazeOk_updWall g0 g _ false hok (fun _ => rfl)
        · exact ih _ _ _ hok
      · exact ih _ _ _ hok

theorem mazeOk_prim (g0 g : Grid) (rng : Rng) (hok : MazeOk g0 g) :
    MazeOk g0 (generatePrimMaze g rng).1 := by
  unfold generatePrimMaze
  dsimp only
  apply mazeOk_primLoop
  split
  · exact mazeOk_updWall g0 _ _ false (mazeOk_fillWalls g0 g hok) (fun _ => rfl)
  · exact mazeOk_fillWalls g0 g hok

theorem mazeOk_kruskal (g0 g : Grid) (rng : Rng) (hok : MazeOk g0 g) :
    MazeOk g0 (generateKruskalMaze g rng).1 := by
  unfold generateKruskalMaze
  dsimp only
  refine foldl_preserve
    (P := fun (acc : Grid × List (List Nat)) => MazeOk g0 acc.1) ?_ _ _
    (mazeOk_fillWalls g0 g hok)
  rintro ⟨g', parent⟩ e hg
  rcases e with ⟨⟨r1, c1⟩, r2, c2⟩
  dsimp only
  split
  · exact mazeOk_carve g0 _ _ (mazeOk_carve g0 _ _ (mazeOk_carve g0 _ _ hg))
  · exact hg

theorem mazeOk_binary (g0 g : Grid) (rng : Rng) (hok : MazeOk g0 g) :
    MazeOk g0 (generateBinaryTreeMaze g rng).1 := by
  unfold generateBinaryTreeMaze
  dsimp only
  refine foldl_preserve (P := fun (acc : Grid × Rng) => MazeOk g0 acc.1) ?_ _ _
    (mazeOk_fillWalls g0 g hok)
  intro acc r hacc
  refine foldl_preserve (P := fun (acc : Grid × Rng) => MazeOk g0 acc.1) ?_ _ _ hacc
  rintro ⟨g', rng'⟩ c hg
  dsimp only
  split
  · exact mazeOk_carve g0 _ _ hg
  · exact mazeOk_carve g0 _ _ (mazeOk_carve g0 _ _ hg)

theorem mazeOk_sidewinder (g0 g : Grid) (rng : Rng) (hok : MazeOk g0 g) :
    MazeOk g0 (generateSidewinderMaze g rng).1 := by
  unfold generateSidewinderMaze
  dsimp only
  refine foldl_preserve (P := fun (acc : Grid × Rng) => MazeOk g0 acc.1) ?_ _ _
    (mazeOk_fillWalls g0 g hok)
  intro acc r hacc
  dsimp only
  refine foldl_preserve
    (P := fun (st : Grid × Rng × Nat) => MazeOk g0 st.1) ?_ _ _ hacc
  rintro ⟨g', rng', runStart⟩ c hg
  dsimp only
  repeat' split
  all_goals first
    | exact mazeOk_carve g0 _ _ (mazeOk_carve g0 _ _ hg)
    | exact mazeOk_carve g0 _ _ hg

/-- C6: for every maze type, input grid and random stream, the generated
grid never walls a start/end cell, preserves every cell's
`isStart`/`isEnd`/`weight`, and carries the working-copy resets
(`isVisited = false`, `isPath = false`, `distance = +inf`,
`previousNode = null`), which the wall carving never touches
(`SafeCell`/`MazeOk` spell out exactly these per-cell conditions). -/
theorem C6_generateMaze_invariants (t : MazeType) (g : Grid) (rng : Rng) :
    MazeOk g (generateMaze g t rng) := by
  have h0 := mazeOk_start g
  cases t with
  | random => exact mazeOk_random g _ rng h0
  | recursive => exact mazeOk_divide g _ _ _ _ _ _ _ rng (mazeOk_fillWalls g _ h0)
  | prim => exact mazeOk_prim g _ rng h0
  | kruskal => exact mazeOk_kruskal g _ rng h0
  | binary => exact mazeOk_binary g _ rng h0
  | sidewinder => exact mazeOk_sidewinder g _ rng h0

/-! ## Toolkit: trace indices, neighbours, positions, field preservation -/

/-- The index of the first occurrence of `p` (the list's length when
absent); used as the visit-order rank of a cell. -/
def posIdx (p : Pos) : List Pos → Nat
  | [] => 0
  | q :: l => if q = p then 0 else posIdx p l + 1

theorem posIdx_lt_length {p : Pos} : ∀ {l : List Pos}, p ∈ l ↔ posIdx p l < l.length := by
  intro l
  induction l with
  | nil => simp [posIdx]
  | cons q l ih =>
    by_cases hq : q = p
    · subst hq; simp [posIdx]
    · simp only [posIdx, if_neg hq, List.mem_cons, List.length_cons]
      constructor
      · rintro (rfl | hmem)
        · exact absurd rfl hq
        · have := ih.mp hmem
          omega
      · intro hlt
        right
        exact ih.mpr (by omega)

theorem posIdx_eq_length_of_not_mem {p : Pos} {l : List Pos} (h : p ∉ l) :
    posIdx p l = l.length := by
  induction l with
  | nil => rfl
  | cons q l ih =>
    have hq : q ≠ p := fun hqp => h (hqp ▸ List.mem_cons_self q l)
    have h' : p ∉ l := fun hm => h (List.mem_cons_of_mem q hm)
    simp [posIdx, hq, ih h']

theorem posIdx_le_length (p : Pos) (l : List Pos) : posIdx p l ≤ l.length := by
  by_cases h : p ∈ l
  · exact Nat.le_of_lt (posIdx_lt_length.mp h)
  · exact Nat.le_of_eq (posIdx_eq_length_of_not_mem h)

theorem posIdx_append_left {p : Pos} {l l' : List Pos} (h : p ∈ l) :
    posIdx p (l ++ l') = posIdx p l := by
  induction l with
  | nil => cases h
  | cons q l ih =>
    by_cases hq : q = p
    · simp [posIdx, hq]
    · rcases List.mem_cons.mp h with rfl | hmem
      · exact absurd rfl hq
      · simp [posIdx, hq, ih hmem]

theorem posIdx_append_right {p : Pos} {l l' : List Pos} (h : p ∉ l) :
    posIdx p (l ++ l') = l.length + posIdx p l' := by
  induction l with
  | nil => simp
  | cons q l ih =>
    have hq : q ≠ p := fun hqp => h (hqp ▸ List.mem_cons_self q l)
    have h' : p ∉ l := fun hm => h (List.mem_cons_of_mem q hm)
    simp [posIdx, hq, ih h']
    omega

theorem mem_getNeighbors_iff {rows cols : Nat} {p q : Pos} :
    q ∈ getNeighbors rows cols p ↔
      (1 ≤ p.1 ∧ q = (p.1 - 1, p.2)) ∨ (p.1 + 1 < rows ∧ q = (p.1 + 1, p.2)) ∨
      (1 ≤ p.2 ∧ q = (p.1, p.2 - 1)) ∨ (p.2 + 1 < cols ∧ q = (p.1, p.2 + 1)) := by
  unfold getNeighbors
  by_cases h1 : 1 ≤ p.1 <;> by_cases h2 : p.1 + 1 < rows <;>
    by_cases h3 : 1 ≤ p.2 <;> by_cases h4 : p.2 + 1 < cols <;>
    simp [h1, h2, h3, h4]

theorem mem_getNeighbors {rows cols : Nat} {p q : Pos}
    (hp : inB rows cols p) (h : q ∈ getNeighbors rows cols p) :
    inB rows cols q ∧ adjacent p q := by
  rcases p with ⟨pr, pc⟩
  rcases q with ⟨qr, qc⟩
  rcases hp with ⟨hr, hc⟩
  rcases mem_getNeighbors_iff.mp h with ⟨h1, heq⟩ | ⟨h1, heq⟩ | ⟨h1, heq⟩ | ⟨h1, heq⟩ <;>
    (cases heq; refine ⟨⟨by omega, by omega⟩, ?_⟩; unfold adjacent; dsimp only; omega)

theorem getNeighbors_complete {rows cols : Nat} {p q : Pos}
    (hq : inB rows cols q) (hadj : adjacent p q) :
    q ∈ getNeighbors rows cols p := by
  rcases p with ⟨pr, pc⟩
  rcases q with ⟨qr, qc⟩
  rcases hq with ⟨hr, hc⟩
  apply mem_getNeighbors_iff.mpr
  unfold adjacent at hadj
  dsimp only at hadj ⊢
  simp only [Prod.mk.injEq]
  omega

theorem mem_allPositions {rows cols : Nat} {p : Pos} :
    p ∈ allPositions rows cols ↔ inB rows cols p := by
  unfold allPositions inB
  rcases p with ⟨r, c⟩
  simp only [List.mem_flatMap, List.mem_map, List.mem_range, Prod.mk.injEq]
  constructor
  · rintro ⟨a, ha, b, hb, rfl, rfl⟩
    exact ⟨ha, hb⟩
  · rintro ⟨hr, hc⟩
    exact ⟨r, hr, ⟨c, hc, rfl, rfl⟩⟩

theorem allPositions_nodup (rows cols : Nat) : (allPositions rows cols).Nodup := by
  unfold allPositions
  rw [List.nodup_flatMap]
  constructor
  · intro r _
    refine List.Nodup.map ?_ (List.nodup_range cols)
    intro a b hab
    exact (Prod.ext_iff.mp hab).2
  · refine List.Pairwise.imp ?_ (List.nodup_range rows)
    intro a b hab x hx hx'
    rcases List.mem_map.mp hx with ⟨c, _, rfl⟩
    rcases List.mem_map.mp hx' with ⟨c', _, hx'⟩
    exact hab (Prod.ext_iff.mp hx').1.symm

theorem allPositions_length (rows cols : Nat) :
    (allPositions rows cols).length = rows * cols := by
  unfold allPositions
  induction rows with
  | zero => simp
  | succ n ih =>
    rw [List.range_succ]
    simp only [List.flatMap_append, List.flatMap_cons, List.flatMap_nil,
      List.length_append, List.length_map, List.length_range, List.append_nil, ih]
    ring

theorem mem_setIdx {f : α → α} :
    ∀ {n : Nat} {l : List α} (x : α), x ∈ setIdx f n l → x ∈ l ∨ ∃ y ∈ l, x = f y := by
  intro n
  induction n with
  | zero =>
    intro l x hx
    cases l with
    | nil => cases hx
    | cons a as =>
      rcases List.mem_cons.mp hx with heq | hx
      · exact Or.inr ⟨a, List.mem_cons_self a as, heq⟩
      · exact Or.inl (List.mem_cons_of_mem a hx)
  | succ n ih =>
    intro l x hx
    cases l with
    | nil => cases hx
    | cons a as =>
      rcases List.mem_cons.mp hx with heq | hx
      · exact Or.inl (List.mem_cons.mpr (Or.inl heq))
      · rcases ih x hx with hmem | ⟨y, hy, rfl⟩
        · exact Or.inl (List.mem_cons_of_mem a hmem)
        · exact Or.inr ⟨y, List.mem_cons_of_mem a hy, rfl⟩

theorem rectGrid_updCell {g : Grid} {rows cols : Nat} (p : Pos) (f : Cell → Cell)
    (h : RectGrid g rows cols) : RectGrid (updCell g p f) rows cols := by
  rcases h with ⟨hlen, hrows⟩
  constructor
  · rw [← hlen]
    exact setIdx_length _ _ _
  · intro row hrow
    unfold updCell at hrow
    rcases mem_setIdx row hrow with hmem | ⟨y, hy, rfl⟩
    · exact hrows row hmem
    · rw [setIdx_length]
      exact hrows y hy

/-! ## Claim C7 and C8: the maze-structure code bugs -/

/-- C7: the claim says the frontier-growth (prim), recursive-division and
spanning-tree procedures always produce perfect mazes in which a subsequent
breadth-first search from any open cell reaches every other open cell.  The
code evaluated at a failing input: on a flag-free 1×3 grid the prim
procedure (draws: seed row 0, seed column 0, frontier pick 0) opens the
cells (0,0) and (0,2) but never the wall (0,1) between them — the frontier
step opens only the picked lattice cell, not the connecting wall — so the
repository's own breadth-first search cannot reach one open cell from the
other. -/
theorem C7_prim_disconnected :
    (cell (generateMaze (testGridW 1 3 []) .prim [0, 0, 0]) (0, 0)).isWall = false ∧
    (cell (generateMaze (testGridW 1 3 []) .prim [0, 0, 0]) (0, 2)).isWall = false ∧
    (bfs (generateMaze (testGridW 1 3 []) .prim [0, 0, 0]) (0, 0) (0, 2) 50).map
      (fun o => o.result.stats.pathFound) = some false := by
  decide

/-- C8: the claim says recursive division fills the grid with walls and then
bisects open chambers with a *wall* line containing exactly one gap, each
chamber remaining traversable.  The code evaluated at a failing input: on a
flag-free 3×3 grid with hole draw 1, the final grid is wall everywhere
except the two cells (1,0) and (1,2) of the bisecting line — `divide`
*opens* the bisection line except at the hole (which stays a wall) inside a
fully walled grid, the inverse of the claimed construction, leaving the
"chambers" filled and the two open cells mutually unreachable. -/
theorem C8_divide_inverted :
    wallsOf (generateMaze (testGridW 3 3 []) .recursive [1]) =
      [(0,0), (0,1), (0,2), (1,1), (2,0), (2,1), (2,2)] := by
  decide

end PFV
